import Mathlib

/-!
Shallow embedding of the colibri web-crawling framework (github.com/gonzxlez/colibri)
for checking its natural-language specification.

Conventions used throughout:
* Go `any` values that flow through the selector engine are modelled by `Val`.
  A Go `nil` interface value is `Val.nil`; a `[]any` slice held inside an
  interface is `Val.list` (a nil slice and an empty slice both have length
  zero and are both modelled as `[]`; the claims only distinguish the nil
  *interface* from an interface holding a slice).
* Go `error` values are modelled by `GoError`; a `nil error` is `Option.none`
  around it.  The concrete `*Errs` aggregate of errs.go is the constructor
  `GoError.errs`, carrying its `data map[string]error` as an association list
  in insertion order (Go map iteration order is irrelevant here: the code and
  the claims only ever look keys up).
* Go maps are association lists; `mapSet` is Go map assignment (replace the
  binding if the key is present, otherwise add it) and `List.lookup` is Go
  map indexing.
-/

/-- Go `any` values as they appear in the selector engine. -/
inductive Val where
  | nil
  | str (s : String)
  | num (n : Int)
  | list (xs : List Val)
  | map (m : List (String × Val))

/-- Go `error` values.  `msg` is a plain error (`errors.New`, library errors);
`errs` is the `*Errs` aggregate of errs.go carrying its `data` map. -/
inductive GoError where
  | msg (s : String)
  | errs (data : List (String × GoError))

/-- `true` exactly for values of the concrete type `*Errs`
(the `errs.(*Errs)` type assertion in errs.go). -/
def GoError.isErrs : GoError → Bool
  | .errs _ => true
  | _ => false

/-- Go map assignment `m[k] = v`: replace the binding if `k` is present,
otherwise add the binding. -/
def mapSet {α : Type} (m : List (String × α)) (k : String) (v : α) : List (String × α) :=
  if (m.lookup k).isSome then
    m.map (fun p => if p.1 = k then (k, v) else p)
  else
    m ++ [(k, v)]

namespace Errs

/-- The key-search loop of `Errs.Add` (errs.go lines 51-57): starting from
`key` with counter `i`, keep trying `keyAux ++ toString i` until an
unoccupied key is found.  The Go loop is unbounded; it terminates because the
candidate keys are pairwise distinct and the map is finite, so a fuel of
`data.length + 1` (supplied by `Errs.add` below) always suffices to reach a
free candidate. -/
def freeKey (data : List (String × GoError)) (keyAux : String) :
    String → Nat → Nat → String
  | key, _, 0 => key
  | key, i, fuel + 1 =>
    if (data.lookup key).isSome then
      freeKey data keyAux (keyAux ++ toString i) (i + 1) fuel
    else
      key

/-- `Errs.Add` from errs.go: no-op when the key is empty or the error nil;
otherwise store the error under the first free counter-suffixed variant of
the key. -/
def add (data : List (String × GoError)) (key : String) (err : Option GoError) :
    List (String × GoError) :=
  match err with
  | none => data
  | some e =>
    if key = "" then data
    else
      let k := freeKey data (key ++ "#") key 1 (data.length + 1)
      mapSet data k e

end Errs

/-- `AddError` from errs.go: lift a possibly-nil, possibly-unstructured error
into an `*Errs` aggregate and add the new named error to it. -/
def AddError (errs : Option GoError) (key : String) (err : Option GoError) :
    Option GoError :=
  match errs, err with
  | none, none => none
  | none, some e => if key = "" then none else some (.errs (Errs.add [] key (some e)))
  | some (.errs data), err => some (.errs (Errs.add data key err))
  | some g, err => some (.errs (Errs.add (Errs.add [] "#" (some g)) key err))

/-- Look a key up in an accumulated error value: only an `*Errs` aggregate
has named sub-errors (`Errs.Get` of errs.go on the accumulator). -/
def errLookup : Option GoError → String → Option GoError
  | some (.errs data), k => data.lookup k
  | _, _ => none

/-- `http.Header`: a map from header names to lists of values.  The code
under verification only ever accesses the literal, already-canonical key
`"User-Agent"`, so MIME canonicalization of keys is the identity here and is
not modelled. -/
abbrev Header : Type := List (String × List String)

/-- `http.Header.Get`: first value for the key, or `""`. -/
def Header.get (h : Header) (key : String) : String :=
  match List.lookup key h with
  | some (v :: _) => v
  | _ => ""

/-- `http.Header.Set`: replace the key's values with the single given value. -/
def Header.set (h : Header) (key value : String) : Header :=
  mapSet h key [value]

-- Basic lookup lemmas used by the error-set proofs.

theorem lookup_append_of_none {α : Type} {l₁ : List (String × α)} (l₂ : List (String × α))
    {k : String} (h : l₁.lookup k = none) :
    (l₁ ++ l₂).lookup k = l₂.lookup k := by
  induction l₁ with
  | nil => rfl
  | cons p rest ih =>
    obtain ⟨a, b⟩ := p
    rw [List.cons_append]
    by_cases hk : k = a
    · subst hk; simp [List.lookup] at h
    · have hb : (k == a) = false := beq_eq_false_iff_ne.mpr hk
      simp only [List.lookup, hb] at h ⊢
      exact ih h

theorem lookup_append_of_some {α : Type} {l₁ : List (String × α)} (l₂ : List (String × α))
    {k : String} {v : α} (h : l₁.lookup k = some v) :
    (l₁ ++ l₂).lookup k = some v := by
  induction l₁ with
  | nil => simp [List.lookup] at h
  | cons p rest ih =>
    obtain ⟨a, b⟩ := p
    rw [List.cons_append]
    by_cases hk : k = a
    · subst hk; simpa [List.lookup] using h
    · have hb : (k == a) = false := beq_eq_false_iff_ne.mpr hk
      simp only [List.lookup, hb] at h ⊢
      exact ih h

/-- When the key is free, Go map assignment is insertion at the end. -/
theorem mapSet_of_none {α : Type} {m : List (String × α)} {k : String} (v : α)
    (h : m.lookup k = none) : mapSet m k v = m ++ [(k, v)] := by
  simp [mapSet, h]

/-- `Errs.add` at a free key (with nonzero fuel) stores the error under the
key itself. -/
theorem Errs.add_of_free {data : List (String × GoError)} {key : String}
    (e : GoError) (hk : key ≠ "") (h : data.lookup key = none) :
    Errs.add data key (some e) = data ++ [(key, e)] := by
  unfold Errs.add Errs.freeKey
  simp [hk, h, mapSet_of_none]

/-!
## URLs

`net/url` is modelled over the scheme/host/path fragment that the code under
verification touches (`IsAbs`, `ResolveReference`, `Host`, `Path`,
`String()`).  Query, fragment and userinfo play no role in any claim and are
elided.
-/

structure URL where
  scheme : String
  host : String
  path : String
deriving DecidableEq, Repr

/-- `&url.URL{}`, the empty reference. -/
def URL.empty : URL := ⟨"", "", ""⟩

/-- `url.URL.IsAbs`: a URL is absolute when it has a scheme. -/
def URL.isAbs (u : URL) : Bool := u.scheme ≠ ""

/-- `url.URL.String()` restricted to scheme/host/path. -/
def URL.toString (u : URL) : String :=
  (if u.scheme ≠ "" then u.scheme ++ "://" else "") ++ u.host ++ u.path

/-- Trim the last path segment: `"/a/b" ↦ "/a/"` (the base-path merge step of
reference resolution). -/
def trimLastSegment (s : String) : String :=
  String.mk ((s.toList.reverse.dropWhile (fun c => c ≠ '/')).reverse)

/-- `url.URL.ResolveReference` restricted to scheme/host/path: an absolute
reference wins; a host-only reference takes the base scheme; an empty
reference yields the base; an absolute path replaces the base path; a
relative path is merged onto the base path's directory. -/
def URL.resolveReference (base ref : URL) : URL :=
  if ref.scheme ≠ "" then ref
  else if ref.host ≠ "" then { scheme := base.scheme, host := ref.host, path := ref.path }
  else if ref.path = "" then base
  else if ref.path.startsWith "/" then { scheme := base.scheme, host := base.host, path := ref.path }
  else { scheme := base.scheme, host := base.host, path := trimLastSegment base.path ++ ref.path }

theorem URL.resolveReference_empty (u : URL) : u.resolveReference URL.empty = u := by
  simp [URL.resolveReference, URL.empty]

/-- Simplified `url.Parse`, total over the well-formed inputs exercised here:
`scheme://host/path` splits into its parts, anything without `"://"` parses
as a (relative) path.  The parse failures of `net/url` (malformed escapes,
control characters) are not exercised by any claim. -/
def parseURL (s : String) : URL :=
  match s.splitOn "://" with
  | [one] => { scheme := "", host := "", path := one }
  | scheme :: rest =>
    let r := String.intercalate "://" rest
    let host := r.takeWhile (fun c => c ≠ '/')
    { scheme := scheme, host := host, path := r.drop host.length }
  | [] => { scheme := "", host := "", path := "" }

/-- `ErrMustBeString` from rules.go. -/
def errMustBeString : GoError := .msg "must be a string"

/-- `ToURL` from rules.go: only strings coerce to URLs. -/
def ToURL (value : Val) : Except GoError URL :=
  match value with
  | .str rawURL => .ok (parseURL rawURL)
  | _ => .error errMustBeString

/-- `fmt.Sprintf("%v", v)`: the string form of a value.  Exact for the nil,
string and number values the claims exercise; composite values get an opaque
rendering (their exact Go form never matters to a claim). -/
def fmtVal : Val → String
  | .nil => "<nil>"
  | .str s => s
  | .num n => toString n
  | .list _ => "[...]"
  | .map _ => "map[...]"

/-!
## The Rule/Selector data model (rules.go, selector file)

`Selector.Selectors` makes `Selector` a recursive (nested) inductive; the
projections are defined by hand.  `Timeout`/`Delay` (`time.Duration`) are
`Int` nanosecond counts.
-/

inductive Selector where
  | mk (name : String) (expr : String) (type : String) (all : Bool) (follow : Bool)
       (method : String) (proxy : Option URL) (header : Option Header)
       (timeout : Int) (selectors : List Selector) (extra : List (String × Val))

def Selector.name : Selector → String | .mk n _ _ _ _ _ _ _ _ _ _ => n
def Selector.expr : Selector → String | .mk _ e _ _ _ _ _ _ _ _ _ => e
def Selector.type : Selector → String | .mk _ _ t _ _ _ _ _ _ _ _ => t
def Selector.all : Selector → Bool | .mk _ _ _ a _ _ _ _ _ _ _ => a
def Selector.follow : Selector → Bool | .mk _ _ _ _ f _ _ _ _ _ _ => f
def Selector.method : Selector → String | .mk _ _ _ _ _ m _ _ _ _ _ => m
def Selector.proxy : Selector → Option URL | .mk _ _ _ _ _ _ p _ _ _ _ => p
def Selector.header : Selector → Option Header | .mk _ _ _ _ _ _ _ h _ _ _ => h
def Selector.timeout : Selector → Int | .mk _ _ _ _ _ _ _ _ t _ _ => t
def Selector.selectors : Selector → List Selector | .mk _ _ _ _ _ _ _ _ _ s _ => s
def Selector.extra : Selector → List (String × Val) | .mk _ _ _ _ _ _ _ _ _ _ e => e

structure Rules where
  method : String
  url : Option URL
  proxy : Option URL
  header : Option Header
  timeout : Int
  cookies : Bool
  ignoreRobotsTxt : Bool
  delay : Int
  redirects : Int
  responseBodySize : Int
  selectors : List Selector
  extra : List (String × Val)

/-- The zero `Rules` value.  `rulesPool.Get()` yields either a brand-new
`&Rules{Extra: map{}}` or a rules cleared by `Rules.Clear` before release
(`ReleaseRules`); both are this zero value, so pool extraction is modelled by
it. -/
def Rules.empty : Rules :=
  { method := "", url := none, proxy := none, header := none, timeout := 0,
    cookies := false, ignoreRobotsTxt := false, delay := 0, redirects := 0,
    responseBodySize := 0, selectors := [], extra := [] }

-- `Selector.Clone` / `CloneSelectors`: deep copies.  `ResolveReference`
-- against the empty reference copies a URL, `Header.Clone` copies the header
-- map, and the `Extra` map is copied entry by entry — all identities on pure
-- values.
mutual

/-- `Selector.Clone` (see the comment above). -/
def Selector.clone : Selector → Selector
  | .mk n e t a f m p h tmo sels ex =>
    .mk n e t a f m
      (match p with | some u => some (u.resolveReference URL.empty) | none => none)
      h tmo
      (if sels.length > 0 then Selector.cloneList sels else [])
      ex

def Selector.cloneList : List Selector → List Selector
  | [] => []
  | s :: rest => s.clone :: Selector.cloneList rest

end

/-- `CloneSelectors` from the selector file. -/
def CloneSelectors (selectors : List Selector) : List Selector :=
  Selector.cloneList selectors

mutual

theorem Selector.clone_eq : ∀ s : Selector, Selector.clone s = s
  | .mk n e t a f m p h tmo sels ex => by
    rw [Selector.clone.eq_def]
    have hl : Selector.cloneList sels = sels := Selector.cloneList_eq sels
    have hp : (match p with | some u => some (u.resolveReference URL.empty) | none => none) = p := by
      cases p <;> simp [URL.resolveReference_empty]
    dsimp only []
    rw [hp, hl]
    by_cases hlen : sels.length > 0
    · simp [hlen]
    · simp only [hlen, if_false]
      have h0 : sels = [] := List.length_eq_zero.mp (Nat.eq_zero_of_not_pos hlen)
      rw [h0]

theorem Selector.cloneList_eq : ∀ l : List Selector, Selector.cloneList l = l
  | [] => by rw [Selector.cloneList.eq_def]
  | s :: rest => by
    rw [Selector.cloneList.eq_def]
    dsimp only []
    rw [Selector.clone_eq s, Selector.cloneList_eq rest]

end

/-- `Rules.Clone` from rules.go. -/
def Rules.clone (rules : Rules) : Rules :=
  { method := rules.method
    url := match rules.url with | some u => some (u.resolveReference URL.empty) | none => none
    proxy := match rules.proxy with | some u => some (u.resolveReference URL.empty) | none => none
    header := rules.header
    timeout := rules.timeout
    cookies := rules.cookies
    ignoreRobotsTxt := rules.ignoreRobotsTxt
    delay := rules.delay
    redirects := rules.redirects
    responseBodySize := rules.responseBodySize
    selectors := if rules.selectors.length > 0 then CloneSelectors rules.selectors else []
    extra := rules.extra }

theorem rulesClone_eq (r : Rules) : r.clone = r := by
  unfold Rules.clone
  have hsel : (if r.selectors.length > 0 then CloneSelectors r.selectors else []) = r.selectors := by
    by_cases hlen : r.selectors.length > 0
    · simp [hlen, CloneSelectors, Selector.cloneList_eq]
    · simp only [hlen, if_false]
      have : r.selectors = [] := List.length_eq_zero.mp (Nat.eq_zero_of_not_pos hlen)
      rw [this]
  have hu : (match r.url with | some u => some (u.resolveReference URL.empty) | none => none) = r.url := by
    cases h : r.url <;> simp [URL.resolveReference_empty]
  have hp : (match r.proxy with | some u => some (u.resolveReference URL.empty) | none => none) = r.proxy := by
    cases h : r.proxy <;> simp [URL.resolveReference_empty]
  rw [hsel, hu, hp]

/-- `Selector.Rules` from the selector file: derive the rules for a
selector-initiated sub-request.  The fresh rules come from the pool
(`Rules.empty`, see there); method, proxy, header and timeout follow the
selector-overrides-source precedence written in the source; cookies,
robots-ignore, delay, redirects and body-size inherit from the source
verbatim; nested selectors are deep-copied; the selector's `Extra` map is
copied entry by entry. -/
def Selector.Rules (sel : Selector) (src : Rules) : Rules :=
  let newRules := Rules.empty
  let newRules := { newRules with method := sel.method }
  let newRules :=
    match sel.proxy with
    | some p => { newRules with proxy := some (p.resolveReference URL.empty) }
    | none =>
      match src.proxy with
      | some p => { newRules with proxy := some (p.resolveReference URL.empty) }
      | none => newRules
  let newRules :=
    match sel.header with
    | some h => { newRules with header := some h }
    | none =>
      match src.header with
      | some h =>
        let nh : Header := []
        let nh :=
          if Header.get h "User-Agent" ≠ "" then
            Header.set nh "User-Agent" (Header.get h "User-Agent")
          else nh
        { newRules with header := some nh }
      | none => newRules
  let newRules :=
    if sel.timeout = 0 then { newRules with timeout := src.timeout }
    else if sel.timeout > 0 then { newRules with timeout := sel.timeout }
    else newRules
  let newRules :=
    { newRules with
      cookies := src.cookies
      ignoreRobotsTxt := src.ignoreRobotsTxt
      delay := src.delay
      redirects := src.redirects
      responseBodySize := src.responseBodySize }
  let newRules :=
    if sel.selectors.length > 0 then
      { newRules with selectors := CloneSelectors sel.selectors }
    else newRules
  { newRules with extra := sel.extra }

/-- The derived rules carry exactly the selector's nested selectors (the
deep copy is the identity on pure values; an empty list stays the pool's
empty list). -/
theorem selRules_selectors (sel : Selector) (src : Rules) :
    (Selector.Rules sel src).selectors = sel.selectors := by
  unfold Selector.Rules
  cases hsp : sel.proxy <;> cases hrp : src.proxy <;>
    cases hsh : sel.header <;> cases hrh : src.header <;>
    simp only [] <;> split_ifs <;>
    simp_all [CloneSelectors, Selector.cloneList_eq, List.length_pos, Rules.empty]

/-!
## Responses, outputs and nodes (colibri.go interfaces)

`Response` is an interface in colibri.go; the selector engine only calls
`URL()`, `Serializable()` and `Extract(rules)` on it, so it is modelled as
exactly those three capabilities.  `Extract` is the re-entrant crawl entry
point; from the engine's point of view it is a collaborator, modelled as an
oracle function.  Its Go signature `(out *Output, err error)` is used by
`followSelector` as "error or output" (the error is inspected first, the
output only dereferenced when the error is nil), which `Except` captures.
-/

mutual

inductive Response where
  | mk (url : URL) (serial : Val) (extract : Rules → Except GoError Output)

inductive Output where
  | mk (response : Response) (data : List (String × Val))

end

def Response.url : Response → URL | .mk u _ _ => u
def Response.serial : Response → Val | .mk _ s _ => s
def Response.extract : Response → Rules → Except GoError Output | .mk _ _ e => e
def Output.response : Output → Response | .mk r _ => r
def Output.data : Output → List (String × Val) | .mk _ d => d

/-- `Output.Serializable` from colibri.go: the map
`{"response": resp.Serializable(), "data": data}`. -/
def Output.serializable (out : Output) : Val :=
  .map [("response", out.response.serial), ("data", .map out.data)]

/-- The `Node` interface of node.go, as the capability record of an abstract
node type `N`: `Find` yields an error, no node (Go `nil`), or a child node;
`FindAll` yields an error or a list of children; `Value` yields the node's
scalar value. -/
structure NodeOps (N : Type) where
  find : N → Selector → Except GoError (Option N)
  findAll : N → Selector → Except GoError (List N)
  value : N → Val

/-!
## Follow-link expansion (node.go `followSelector`)

The two explicit loops of `followSelector` are written as accumulator
recursions: `followCoerce` is the coercion/resolution loop over the raw
values, `followExtract` the fetch/extract loop over the resolved URLs.
-/

/-- The first loop of `followSelector`: coerce every raw value to a URL,
recording a coercion failure under the value's string form and skipping it,
and resolving relative references against the response's own URL. -/
def followCoerce (resp : Response) :
    List Val → List URL → Option GoError → List URL × Option GoError
  | [], urls, errs => (urls, errs)
  | rawU :: rest, urls, errs =>
    match ToURL rawU with
    | .error e => followCoerce resp rest urls (AddError errs (fmtVal rawU) (some e))
    | .ok u =>
      let u := if ¬ u.isAbs then resp.url.resolveReference u else u
      followCoerce resp rest (urls ++ [u]) errs

/-- The second loop of `followSelector`: for each resolved URL, clone the
rules, point them at the URL, run the re-entrant `resp.Extract`, record a
failure under the URL's string form, and append a success's serialized
output. -/
def followExtract (rules : Rules) (resp : Response) :
    List URL → List Val → Option GoError → List Val × Option GoError
  | [], result, errs => (result, errs)
  | u :: rest, result, errs =>
    let cRules := { rules.clone with url := some u }
    match resp.extract cRules with
    | .error e => followExtract rules resp rest result (AddError errs u.toString (some e))
    | .ok out => followExtract rules resp rest (result ++ [out.serializable]) errs

/-- `followSelector` from node.go: coerce and resolve the batch of raw
values; if any value failed to coerce, return nil together with the
collected errors; otherwise fetch and extract every URL. -/
def followSelector (rules : Rules) (resp : Response) (rawURL : List Val) :
    List Val × Option GoError :=
  match followCoerce resp rawURL [] none with
  | (_, some errs) => ([], some errs)
  | (urls, none) => followExtract rules resp urls [] none

theorem Selector.sizeOf_selectors_lt (s : Selector) : sizeOf s.selectors < sizeOf s := by
  cases s with
  | mk n e t a f m p h tmo sels ex =>
    simp only [Selector.selectors, Selector.mk.sizeOf_spec]
    omega

/-!
## The selector resolver (node.go)

`FindSelectors`, `findSelector` and `findAllSelector` are mutually recursive
on the selector tree: a selector's sub-request rules carry a deep copy of its
nested selectors, which `Selector.Rules_selectors` identifies with the nested
selectors themselves, making the recursion well-founded.  The two `for`
loops (over sibling selectors, and over the matches of an "all" selector)
are the accumulator recursions `findSelectorsLoop` and `findAllLoop`.
Functions return Go's `(value, error)` pairs: both components can be
meaningful at once (partial results next to errors), exactly as in the
source.
-/

mutual

/-- `findSelector` from node.go: dispatch on All / Find / Follow / nested
selectors / plain value. -/
def findSelector {N : Type} (W : NodeOps N) (src : Rules) (resp : Response)
    (sel : Selector) (parent : N) : Val × Option GoError :=
  if sel.all then
    match findAllSelector W src resp sel parent with
    | (l, e) => (.list l, e)
  else
    match W.find parent sel with
    | .error e => (.nil, some e)
    | .ok none => (.nil, none)
    | .ok (some child) =>
      if sel.follow then
        let rules := Selector.Rules sel src
        match followSelector rules resp [W.value child] with
        | (l, e) => (.list l, e)
      else if sel.selectors.length > 0 then
        let rules := Selector.Rules sel src
        match FindSelectors W rules (some resp) (some child) with
        | (m, e) => (.map m, e)
      else (W.value child, none)
termination_by (3 * sizeOf sel + 2, 0)
decreasing_by
  · apply Prod.Lex.left
    omega
  · apply Prod.Lex.left
    simp only [selRules_selectors]
    have h := Selector.sizeOf_selectors_lt sel
    omega

/-- `findAllSelector` from node.go: find all matches; with nested selectors
(and no Follow) evaluate the subtree against every match, recording a
failure under the match's index; otherwise collect the values and follow
them if Follow is set. -/
def findAllSelector {N : Type} (W : NodeOps N) (src : Rules) (resp : Response)
    (sel : Selector) (parent : N) : List Val × Option GoError :=
  match W.findAll parent sel with
  | .error e => ([], some e)
  | .ok children =>
    if ¬ sel.follow ∧ sel.selectors.length > 0 then
      let rules := Selector.Rules sel src
      findAllLoop W rules resp children 0 [] none
    else
      let result := children.map W.value
      if sel.follow then
        let rules := Selector.Rules sel src
        followSelector rules resp result
      else (result, none)
termination_by (3 * sizeOf sel + 1, 0)
decreasing_by
  try simp_wf
  apply Prod.Lex.left
  simp only [selRules_selectors]
  have h := Selector.sizeOf_selectors_lt sel
  omega

/-- The `for i, child := range children` loop of `findAllSelector`. -/
def findAllLoop {N : Type} (W : NodeOps N) (rules : Rules) (resp : Response) :
    List N → Nat → List Val → Option GoError → List Val × Option GoError
  | [], _, result, errs => (result, errs)
  | child :: rest, i, result, errs =>
    match FindSelectors W rules (some resp) (some child) with
    | (_, some e) =>
      findAllLoop W rules resp rest (i + 1) result (AddError errs (toString i) (some e))
    | (found, none) =>
      findAllLoop W rules resp rest (i + 1) (result ++ [.map found]) errs
termination_by children _ _ _ => (3 * sizeOf rules.selectors + 3, children.length)
decreasing_by
  · simp_wf
    apply Prod.Lex.left
    omega
  · simp_wf
    apply Prod.Lex.right
    try simp only [List.length_cons]
    omega
  · simp_wf
    apply Prod.Lex.right
    try simp only [List.length_cons]
    omega

/-- The `for _, selector := range rules.Selectors` loop of `FindSelectors`. -/
def findSelectorsLoop {N : Type} (W : NodeOps N) (src : Rules) (resp : Response) (parent : N) :
    List Selector → List (String × Val) → Option GoError →
    List (String × Val) × Option GoError
  | [], result, errs => (result, errs)
  | sel :: rest, result, errs =>
    match findSelector W src resp sel parent with
    | (_, some e) =>
      findSelectorsLoop W src resp parent rest result (AddError errs sel.name (some e))
    | (found, none) =>
      findSelectorsLoop W src resp parent rest (mapSet result sel.name found) errs
termination_by sels _ _ => (3 * sizeOf sels + 1, 0)
decreasing_by
  · simp_wf
    apply Prod.Lex.left
    try simp only [List.cons.sizeOf_spec]
    omega
  · simp_wf
    apply Prod.Lex.left
    try simp only [List.cons.sizeOf_spec]
    omega
  · simp_wf
    apply Prod.Lex.left
    try simp only [List.cons.sizeOf_spec]
    omega

/-- `FindSelectors` from node.go: nil response or parent yields nil data and
nil error; otherwise iterate the sibling selectors, recording each failure
under the selector's name and each success in the result map. -/
def FindSelectors {N : Type} (W : NodeOps N) (rules : Rules) (resp : Option Response)
    (parent : Option N) : List (String × Val) × Option GoError :=
  match resp, parent with
  | some resp, some parent => findSelectorsLoop W rules resp parent rules.selectors [] none
  | _, _ => ([], none)
termination_by (3 * sizeOf rules.selectors + 2, 0)
decreasing_by
  try simp_wf
  apply Prod.Lex.left
  omega

end

/-!
## Robots-exclusion gate (webextractor robots file)

`temoto/robotstxt` is an external library; a parsed policy is abstracted to
its `TestAgent(path, agent)` capability.  The nested robots.txt fetch
(`c.Do` followed by `io.ReadAll` of the body) is a collaborator, modelled as
the oracle `doReq` returning status code and body text (a failure of either
the request or the read is the oracle's error); `robotstxt.FromStatusAndBytes`
is the oracle `fromStatusAndBytes`.  `IsAllowed` returns, besides its error,
the updated cache and the list of nested requests it issued — the I/O trace
that lets "no further fetch happens" be stated.
-/

/-- A parsed robots.txt policy (`*robotstxt.RobotsData` of temoto/robotstxt),
abstracted to `TestAgent`. -/
structure RobotsPolicy where
  testAgent : String → String → Bool

/-- The cache of the webextractor `RobotsData` structure: host → policy. -/
abbrev RobotsCache := List (String × RobotsPolicy)

/-- `robotsTxtPath` from the webextractor robots file. -/
def robotsTxtPath : String := "/robots.txt"

/-- `ErrRobotstxtRestriction`: the robots.txt restriction error of the
colibri package (declared as `ErrorRobotstxtRestriction` in the colibri.go
under src; only its identity matters here, never its message). -/
def errRobotstxtRestriction : GoError :=
  .msg "page not accessible due to robots.txt restriction"

/-- A possibly-nil `http.Header` read as a map (Go's header operations work
on a nil map as on an empty one). -/
def headerOrEmpty : Option Header → Header
  | some h => h
  | none => []

/-- `rules.Header.Get(key)`: Go's `http.Header.Get` works on a nil map. -/
def Rules.headerGet (rules : Rules) (key : String) : String :=
  Header.get (headerOrEmpty rules.header) key

/-- `RobotsData.IsAllowed` from the webextractor robots file.  The robots
file path itself is exempt; a cached policy for the URL's host is consulted
directly; otherwise the host's robots.txt is fetched through a nested
request forced to ignore robots, parsed, and cached.  Go dereferences
`rules.URL`; a nil URL would panic (caught by `Do`'s recover upstream), so
the model reads the URL with an empty default — every claim supplies one. -/
def RobotsData.IsAllowed
    (doReq : Rules → Except GoError (Int × String))
    (fromStatusAndBytes : Int → String → Except GoError RobotsPolicy)
    (robots : RobotsCache) (rules : Rules) :
    Option GoError × RobotsCache × List Rules :=
  let u := rules.url.getD URL.empty
  if u.path = robotsTxtPath then (none, robots, [])
  else
    match robots.lookup u.host with
    | some robotsData =>
      if robotsData.testAgent u.path (rules.headerGet "User-Agent") then
        (none, robots, [])
      else
        (some errRobotstxtRestriction, robots, [])
    | none =>
      let robotsRef := parseURL robotsTxtPath
      let robotsRules :=
        { rules.clone with
          method := "GET"
          url := some (u.resolveReference robotsRef)
          ignoreRobotsTxt := true }
      match doReq robotsRules with
      | .error e => (some e, robots, [robotsRules])
      | .ok (status, buf) =>
        match fromStatusAndBytes status buf with
        | .error e => (some e, robots, [robotsRules])
        | .ok robotsData =>
          let robots := mapSet robots u.host robotsData
          if robotsData.testAgent u.path (rules.headerGet "User-Agent") then
            (none, robots, [robotsRules])
          else
            (some errRobotstxtRestriction, robots, [robotsRules])

/-!
## Redirect/body-size bounding (webextractor client)
-/

/-- The outcome of the underlying `net/http` client call (request
construction plus `httpClient.Do`): declared `ContentLength`, response body,
and the redirect chain collected by the `CheckRedirect` callback.  Network
transport is a collaborator; `Client.Do` takes it as an oracle. -/
structure HTTPResult where
  contentLength : Int
  body : List UInt8
  redirects : List URL

/-- The webextractor `Response` structure, restricted to the fields
`Client.Do` assigns: the wrapped `*http.Response` (declared length and
possibly size-limited body) and the collected redirects. -/
structure WResponse where
  contentLength : Int
  body : List UInt8
  redirects : List URL

/-- `ErrResponseBodySize`: the body-size error of the colibri package (its
declaration lives in a colibri source revision not included under src; only
its identity matters to the client code). -/
def errResponseBodySize : GoError := .msg "response body size limit exceeded"

/-- `Client.Do` from the webextractor client: on transport failure return
nil and the error; otherwise build the response, and when a maximum body
size is configured wrap the body in a size-limiting reader
(`io.LimitReader`, i.e. `take`) and — when the declared content length
exceeds the cap — return the truncated response together with
`ErrResponseBodySize`. -/
def Client.Do (transport : Rules → Except GoError HTTPResult) (rules : Rules) :
    Option WResponse × Option GoError :=
  match transport rules with
  | .error e => (none, some e)
  | .ok res =>
    let r : WResponse :=
      { contentLength := res.contentLength, body := res.body, redirects := res.redirects }
    if rules.responseBodySize ≠ 0 then
      let n : Int := rules.responseBodySize
      let r := { r with body := r.body.take n.toNat }
      if res.contentLength > n then (some r, some errResponseBodySize)
      else (some r, none)
    else (some r, none)

/-!
## The orchestrator (colibri.go `Colibri.Do`)
-/

/-- `ErrClientIsNil` from colibri.go. -/
def errClientIsNil : GoError := .msg "client is nil"

/-- `ErrRulesIsNil` from colibri.go. -/
def errRulesIsNil : GoError := .msg "rules is nil"

/-- `DefaultUserAgent` from colibri.go. -/
def defaultUserAgent : String := "colibri/0.2"

/-- The `Colibri` structure of colibri.go with its collaborator interfaces
as oracle functions: `Client.Do` and `RobotsTxt.IsAllowed` (`nil` interface
= `none`).  The `Delay` collaborator's `Wait/Done/Stamp` read only the
rules' URL and delay and never write the rules; being pure timing effects
they are outside this embedding, and the `Parser` plays no part in `Do`. -/
structure ColibriM where
  client : Option (Rules → Option WResponse × Option GoError)
  robotsTxt : Option (Rules → Option GoError)

/-- `Colibri.Do` from colibri.go: nil-client and nil-rules guards; default
the header and the User-Agent; robots gate unless ignored; dispatch to the
client.  Go mutates the caller's `*Rules`; the model returns the updated
rules alongside the result.  The deferred `recover` wrapper converts panics
to errors and never fires in this pure model. -/
def ColibriM.Do (c : ColibriM) (rulesIn : Option Rules) :
    (Option WResponse × Option GoError) × Option Rules :=
  match c.client with
  | none => ((none, some errClientIsNil), rulesIn)
  | some clientDo =>
    match rulesIn with
    | none => ((none, some errRulesIsNil), none)
    | some rules =>
      let rules := if rules.header = none then { rules with header := some [] } else rules
      let rules :=
        if rules.headerGet "User-Agent" = "" then
          { rules with
            header := some (Header.set (headerOrEmpty rules.header) "User-Agent" defaultUserAgent) }
        else rules
      let robotsErr :=
        match c.robotsTxt with
        | some isAllowed => if ¬ rules.ignoreRobotsTxt then isAllowed rules else none
        | none => none
      match robotsErr with
      | some e => ((none, some e), some rules)
      | none => (clientDo rules, some rules)

/-!
## Claim C4 — timeout inheritance in `Selector.Rules`

The source reads `if sel.Timeout == 0 {inherit} else if sel.Timeout > 0
{override}` — a *negative* selector timeout matches neither branch and
leaves the pool's zero timeout in place, it does not inherit the source
timeout.  The claim as stated is refuted below and proved in its amended
form.
-/

/-- A selector whose only non-zero field is a negative timeout. -/
def c4sel : Selector := .mk "s" "//a" "" false false "" none none (-1) [] []

/-- Source rules with timeout 5. -/
def c4src : Rules := { Rules.empty with timeout := 5 }

/-- C4 counterexample: with selector timeout `-1` (non-positive) and source
timeout `5`, the derived rules' timeout is `0`, not the source's `5` — the
claim's "equal to the source rules' Timeout whenever the selector's Timeout
is non-positive" fails for negative timeouts. -/
theorem c4_counterexample :
    (Selector.Rules c4sel c4src).timeout = 0 ∧ (0 : Int) ≠ 5 := by
  constructor
  · rfl
  · decide

/-- C4 (amended): the derived rules' timeout equals the selector's timeout
when it is positive, the source rules' timeout when the selector's timeout
is zero, and the pool's zero value `0` when the selector's timeout is
negative. -/
theorem c4_rules_timeout (sel : Selector) (src : Rules) :
    (Selector.Rules sel src).timeout =
      if sel.timeout > 0 then sel.timeout
      else if sel.timeout = 0 then src.timeout
      else 0 := by
  unfold Selector.Rules
  cases hsp : sel.proxy <;> cases hrp : src.proxy <;>
    cases hsh : sel.header <;> cases hrh : src.header <;>
    simp only [] <;> split_ifs <;>
    simp_all [Rules.empty]

/-!
## Claim C5 — header inheritance in `Selector.Rules`
-/

/-- C5: when the selector has no header and the source rules do, the derived
header carries exactly the source's User-Agent value (when non-empty) and
nothing else; when the selector supplies its own header, it is used in
full. -/
theorem c5_rules_header (sel : Selector) (src : Rules) :
    (∀ h : Header, sel.header = none → src.header = some h →
      (Selector.Rules sel src).header =
        some (if Header.get h "User-Agent" = "" then ([] : Header)
              else Header.set [] "User-Agent" (Header.get h "User-Agent"))) ∧
    (∀ h : Header, sel.header = some h → (Selector.Rules sel src).header = some h) := by
  constructor
  · intro h hsel hsrc
    unfold Selector.Rules
    cases hsp : sel.proxy <;> cases hrp : src.proxy <;>
      simp only [hsel, hsrc] <;> split_ifs <;> simp_all [Rules.empty]
  · intro h hsel
    unfold Selector.Rules
    cases hsp : sel.proxy <;> cases hrp : src.proxy <;>
      simp only [hsel] <;> split_ifs <;> simp_all [Rules.empty]

/-- Selector with no header of its own. -/
def c5selNoHeader : Selector := .mk "s" "//a" "" false false "" none none 0 [] []

/-- Selector supplying its own header. -/
def c5selOwnHeader : Selector :=
  .mk "s" "//a" "" false false "" none (some [("X-Own", ["1"])]) 0 [] []

/-- Source rules with a User-Agent and an ambient header. -/
def c5src : Rules :=
  { Rules.empty with header := some [("User-Agent", ["ua1"]), ("X-Ambient", ["zz"])] }

/-- C5 witness: concretely, a header-less selector inherits exactly
`User-Agent: ua1` from a source that also carries `X-Ambient`, and a
selector with its own header keeps it in full. -/
theorem c5_witness :
    (Selector.Rules c5selNoHeader c5src).header = some [("User-Agent", ["ua1"])] ∧
    (Selector.Rules c5selOwnHeader c5src).header = some [("X-Own", ["1"])] := by
  constructor
  · have h := (c5_rules_header c5selNoHeader c5src).1
      [("User-Agent", ["ua1"]), ("X-Ambient", ["zz"])] rfl rfl
    simpa [Header.get, Header.set, mapSet, List.lookup] using h
  · exact (c5_rules_header c5selOwnHeader c5src).2 [("X-Own", ["1"])] rfl

/-!
## Claim C7 — `Errs.Add` never overwrites

The claim quantifies over *every* error set; when the name `k` is already
occupied the first added error lands on `k#1` and is not retrievable under
`k`, refuting the claim as stated.  The amended claim conditions on `k` and
`k#1` being free — the state reached by adding fresh names — and is proved
below, including that no previously stored error is overwritten.
-/

/-- C7 counterexample: in a set already holding `k`, adding `e1` under `k`
and then `e2` under `k` leaves the original error under `k` (`e1` went to
`k#1`, `e2` to `k#2`), so "e1 remains retrievable under k" fails. -/
theorem c7_counterexample :
    (Errs.add (Errs.add [("k", .msg "e0")] "k" (some (.msg "e1")))
        "k" (some (.msg "e2"))).lookup "k" = some (.msg "e0") ∧
    GoError.msg "e0" ≠ GoError.msg "e1" := by
  constructor
  · rfl
  · intro h
    injection h with h'
    exact absurd h' (by decide)

/-- C7 (amended): in any error set in which neither `k` nor `k#1` is
occupied, adding `e1` under `k` and then `e2` under `k` retains both — `e1`
under `k`, `e2` under `k#1` — and every previously stored error stays
retrievable under its key. -/
theorem c7_errs_add (data : List (String × GoError)) (k : String)
    (e1 e2 : GoError) (hk : k ≠ "")
    (h1 : data.lookup k = none) (h2 : data.lookup (k ++ "#1") = none) :
    (Errs.add (Errs.add data k (some e1)) k (some e2)).lookup k = some e1 ∧
    (Errs.add (Errs.add data k (some e1)) k (some e2)).lookup (k ++ "#1") = some e2 ∧
    ∀ k' e', data.lookup k' = some e' →
      (Errs.add (Errs.add data k (some e1)) k (some e2)).lookup k' = some e' := by
  have hd1 : Errs.add data k (some e1) = data ++ [(k, e1)] := Errs.add_of_free e1 hk h1
  have hk1ne : k ++ "#1" ≠ k := by
    intro heq
    have h3 := congrArg String.length heq
    rw [String.length_append] at h3
    have hlen2 : ("#1" : String).length = 2 := rfl
    rw [hlen2] at h3
    omega
  have hlook1 : (data ++ [(k, e1)]).lookup k = some e1 := by
    rw [lookup_append_of_none _ h1]
    simp [List.lookup]
  have hlookk1 : (data ++ [(k, e1)]).lookup (k ++ "#1") = none := by
    rw [lookup_append_of_none _ h2]
    have hb : (k ++ "#1" == k) = false := beq_eq_false_iff_ne.mpr hk1ne
    simp [List.lookup, hb]
  have hkey : Errs.freeKey (data ++ [(k, e1)]) (k ++ "#") k 1 (data.length + 1 + 1)
      = k ++ "#1" := by
    rw [Errs.freeKey]
    simp only [hlook1, Option.isSome_some, if_true]
    have happ : (k ++ "#") ++ toString 1 = k ++ "#1" := by
      rw [show (toString 1 : String) = "1" from rfl, String.append_assoc]
      rfl
    rw [happ, Errs.freeKey]
    simp only [hlookk1, Option.isSome_none, Bool.false_eq_true, if_false]
  have hd2 : Errs.add (data ++ [(k, e1)]) k (some e2)
      = data ++ [(k, e1)] ++ [(k ++ "#1", e2)] := by
    rw [Errs.add]
    rw [if_neg hk]
    have hlen : (data ++ [(k, e1)]).length + 1 = data.length + 1 + 1 := by simp
    rw [hlen, hkey]
    exact mapSet_of_none e2 hlookk1
  rw [hd1, hd2]
  refine ⟨lookup_append_of_some _ hlook1, ?_, ?_⟩
  · rw [lookup_append_of_none _ hlookk1]
    simp [List.lookup]
  · intro k' e' hke
    exact lookup_append_of_some _ (lookup_append_of_some _ hke)

/-- C7 witness: concretely, starting from a set holding only `x`, adding two
errors under the fresh name `k` stores the first under `k` and the second
under `k#1`. -/
theorem c7_witness :
    (Errs.add (Errs.add [("x", GoError.msg "ex")] "k" (some (.msg "e1")))
        "k" (some (.msg "e2"))).lookup "k" = some (.msg "e1") ∧
    (Errs.add (Errs.add [("x", GoError.msg "ex")] "k" (some (.msg "e1")))
        "k" (some (.msg "e2"))).lookup "k#1" = some (.msg "e2") := by
  have h := c7_errs_add [("x", GoError.msg "ex")] "k" (.msg "e1") (.msg "e2")
    (by decide) rfl rfl
  exact ⟨h.1, h.2.1⟩

/-!
## Claim C10 — `AddError` preserves a pre-existing unstructured error
-/

/-- C10: for a non-nil existing error that is not an `*Errs`, a non-empty
key distinct from `"#"`, and a non-nil error, `AddError` returns an `*Errs`
holding the original error under `"#"` and the new error under the key. -/
theorem c10_addError_lifts (g : GoError) (k : String) (e : GoError)
    (hg : g.isErrs = false) (hk : k ≠ "") (hk2 : k ≠ "#") :
    AddError (some g) k (some e) = some (.errs [("#", g), (k, e)]) ∧
    ([("#", g), (k, e)] : List (String × GoError)).lookup "#" = some g ∧
    ([("#", g), (k, e)] : List (String × GoError)).lookup k = some e := by
  have hb : (k == "#") = false := beq_eq_false_iff_ne.mpr hk2
  refine ⟨?_, by simp [List.lookup], by simp [List.lookup, hb]⟩
  cases g with
  | errs d => simp [GoError.isErrs] at hg
  | msg s =>
    show some (GoError.errs (Errs.add (Errs.add [] "#" (some (.msg s))) k (some e))) = _
    have ha : Errs.add ([] : List (String × GoError)) "#" (some (.msg s))
        = [("#", GoError.msg s)] := Errs.add_of_free _ (by decide) rfl
    rw [ha]
    have hfree : ([("#", GoError.msg s)] : List (String × GoError)).lookup k = none := by
      simp [List.lookup, hb]
    rw [Errs.add_of_free e hk hfree]
    rfl

/-- C10 witness: a plain error `boom`, key `k` and error `bad` concretely
produce the two-entry error set. -/
theorem c10_witness :
    AddError (some (.msg "boom")) "k" (some (.msg "bad"))
      = some (.errs [("#", .msg "boom"), ("k", .msg "bad")]) ∧
    ([("#", GoError.msg "boom"), ("k", GoError.msg "bad")].lookup "#"
      = some (GoError.msg "boom")) := by
  have h := c10_addError_lifts (.msg "boom") "k" (.msg "bad") rfl (by decide) (by decide)
  exact ⟨h.1, h.2.1⟩

/-!
## Claim C8 — body-size bounding returns response and error together
-/

/-- C8: with a configured non-zero maximum body size, when the declared
content length exceeds the maximum, `Client.Do` returns the response — its
body wrapped in a reader limited to the configured size — together with the
body-size error; the response is not discarded. -/
theorem c8_client_bodysize (transport : Rules → Except GoError HTTPResult)
    (rules : Rules) (res : HTTPResult)
    (hcfg : rules.responseBodySize ≠ 0)
    (hres : transport rules = .ok res)
    (hlen : res.contentLength > rules.responseBodySize) :
    Client.Do transport rules =
      (some { contentLength := res.contentLength,
              body := res.body.take rules.responseBodySize.toNat,
              redirects := res.redirects }, some errResponseBodySize) := by
  unfold Client.Do
  rw [hres]
  simp [hcfg, hlen]

/-- A transport oracle declaring a 3-byte body against a 2-byte cap. -/
def c8transport : Rules → Except GoError HTTPResult :=
  fun _ => .ok { contentLength := 3, body := [1, 2, 3], redirects := [] }

/-- Rules capping the response body at 2 bytes. -/
def c8rules : Rules := { Rules.empty with responseBodySize := 2 }

/-- C8 witness: concretely, the truncated two-byte response and the
body-size error come back together. -/
theorem c8_witness :
    Client.Do c8transport c8rules =
      (some { contentLength := 3, body := [1, 2], redirects := [] },
       some errResponseBodySize) := by
  have h := c8_client_bodysize c8transport c8rules
    { contentLength := 3, body := [1, 2, 3], redirects := [] }
    (by decide) rfl (by decide)
  simpa using h

/-!
## Claim C9 — `Colibri.Do` mutates only the rules' header
-/

/-- The header normalization `Colibri.Do` performs before the robots check
and dispatch: a nil header becomes an empty one, an empty or missing
User-Agent becomes the default (written with the same two steps as the
source). -/
def normalizeHeader (r : Rules) : Rules :=
  let r := if r.header = none then { r with header := some [] } else r
  let r :=
    if r.headerGet "User-Agent" = "" then
      { r with
        header := some (Header.set (headerOrEmpty r.header) "User-Agent" defaultUserAgent) }
    else r
  r

/-- The header normalization in explicit one-step form. -/
theorem normalizeHeader_eq (r : Rules) :
    normalizeHeader r =
      { r with header := some (if Header.get (headerOrEmpty r.header) "User-Agent" = ""
                               then Header.set (headerOrEmpty r.header) "User-Agent" defaultUserAgent
                               else headerOrEmpty r.header) } := by
  unfold normalizeHeader
  cases hh : r.header with
  | none => simp [Rules.headerGet, headerOrEmpty, Header.get, List.lookup]
  | some h =>
    have heta : { r with header := some h } = r := by
      cases r
      simp_all
    by_cases hg : Header.get h "User-Agent" = "" <;>
      simp [Rules.headerGet, headerOrEmpty, hh, hg, heta]

/-- With a client present, `Colibri.Do` is exactly: normalize the header,
consult the robots gate on the normalized rules, dispatch the normalized
rules to the client, and hand the normalized rules back to the caller. -/
theorem colibriDo_eq (c : ColibriM) (clientDo : Rules → Option WResponse × Option GoError)
    (r : Rules) (hc : c.client = some clientDo) :
    c.Do (some r) =
      ((match (match c.robotsTxt with
               | some isAllowed =>
                 if ¬ (normalizeHeader r).ignoreRobotsTxt then isAllowed (normalizeHeader r)
                 else none
               | none => none) with
        | some e => (none, some e)
        | none => clientDo (normalizeHeader r)), some (normalizeHeader r)) := by
  unfold ColibriM.Do
  rw [hc]
  show (match (match c.robotsTxt with
        | some isAllowed =>
          if ¬ (normalizeHeader r).ignoreRobotsTxt then isAllowed (normalizeHeader r)
          else none
        | none => none) with
    | some e => ((none, some e), some (normalizeHeader r))
    | none => (clientDo (normalizeHeader r), some (normalizeHeader r))) = _
  cases hX : (match c.robotsTxt with
      | some isAllowed =>
        if ¬ (normalizeHeader r).ignoreRobotsTxt then isAllowed (normalizeHeader r)
        else none
      | none => none : Option GoError) with
  | none => rfl
  | some e => rfl

/-- C9: with collaborators present as pure oracles (which never mutate the
rules), `Colibri.Do` changes only the `Header` field of non-nil rules — nil
header replaced by an empty one, empty/missing User-Agent set to
`"colibri/0.2"` — and does so before the robots check and the dispatch:
both oracles observe the normalized rules.  Every other field is returned
unchanged. -/
theorem c9_do_frame (c : ColibriM) (clientDo : Rules → Option WResponse × Option GoError)
    (r : Rules) (hc : c.client = some clientDo) :
    ∃ r' : Rules,
      (c.Do (some r)).2 = some r' ∧
      r'.method = r.method ∧ r'.url = r.url ∧ r'.proxy = r.proxy ∧
      r'.timeout = r.timeout ∧ r'.cookies = r.cookies ∧
      r'.ignoreRobotsTxt = r.ignoreRobotsTxt ∧ r'.delay = r.delay ∧
      r'.redirects = r.redirects ∧ r'.responseBodySize = r.responseBodySize ∧
      r'.selectors = r.selectors ∧ r'.extra = r.extra ∧
      r'.header = some (if Header.get (headerOrEmpty r.header) "User-Agent" = ""
                        then Header.set (headerOrEmpty r.header) "User-Agent" defaultUserAgent
                        else headerOrEmpty r.header) ∧
      defaultUserAgent = "colibri/0.2" ∧
      (∀ g e, c.robotsTxt = some g → r.ignoreRobotsTxt = false → g r' = some e →
        (c.Do (some r)).1 = (none, some e)) ∧
      (∀ g, c.robotsTxt = some g → r.ignoreRobotsTxt = false → g r' = none →
        (c.Do (some r)).1 = clientDo r') := by
  have hn := normalizeHeader_eq r
  refine ⟨normalizeHeader r, ?_, by rw [hn], by rw [hn], by rw [hn], by rw [hn],
    by rw [hn], by rw [hn], by rw [hn], by rw [hn], by rw [hn], by rw [hn], by rw [hn],
    by rw [hn], rfl, ?_, ?_⟩
  · rw [colibriDo_eq c clientDo r hc]
  · intro g e hg hig hge
    rw [colibriDo_eq c clientDo r hc]
    have hig' : (normalizeHeader r).ignoreRobotsTxt = false := by
      rw [normalizeHeader_eq]
      exact hig
    simp [hg, hig', hge]
  · intro g hg hig hge
    rw [colibriDo_eq c clientDo r hc]
    have hig' : (normalizeHeader r).ignoreRobotsTxt = false := by
      rw [normalizeHeader_eq]
      exact hig
    simp [hg, hig', hge]

/-- A colibri with a trivial client and a robots gate that always allows. -/
def c9colibri : ColibriM :=
  { client := some (fun _ => (none, some (.msg "offline")))
    robotsTxt := some (fun _ => none) }

/-- Rules with an ambient header but no User-Agent. -/
def c9rules : Rules :=
  { Rules.empty with
    url := some (URL.mk "http" "example.com" "/")
    header := some [("X-Keep", ["v"])] }

/-- C9 witness: concretely, `Do` returns rules that differ from the input
only by the added default User-Agent, and dispatches them to the client. -/
theorem c9_witness :
    ∃ r' : Rules,
      (c9colibri.Do (some c9rules)).2 = some r' ∧
      r'.url = some (URL.mk "http" "example.com" "/") ∧
      r'.header = some [("X-Keep", ["v"]), ("User-Agent", ["colibri/0.2"])] ∧
      (c9colibri.Do (some c9rules)).1 = (none, some (.msg "offline")) := by
  obtain ⟨r', h2, _, hurl, _, _, _, _, _, _, _, _, _, hhdr, _, _, hdisp⟩ :=
    c9_do_frame c9colibri (fun _ => (none, some (.msg "offline"))) c9rules rfl
  refine ⟨r', h2, by rw [hurl]; rfl, ?_, ?_⟩
  · rw [hhdr]
    decide
  · rw [hdisp (fun _ => none) rfl rfl rfl]

/-!
## Claim C3 — cached robots policy: no re-fetch, deny ⇔ restriction

`IsAllowed` short-circuits on the literal robots-file path *before*
consulting the cache: a URL with path `/robots.txt` on a cached host
returns nil even when the cached policy denies that path, refuting the
claim's "returning the RobotsRestriction error exactly when the cached
policy denies the URL's path".  The amended claim excludes the exempt
robots-file path and is proved in full generality below.
-/

/-- A policy that denies every path for every agent. -/
def denyAll : RobotsPolicy := ⟨fun _ _ => false⟩

/-- A fetch oracle that must never be consulted. -/
def c3noFetch : Rules → Except GoError (Int × String) :=
  fun _ => .error (.msg "no network")

/-- A robots parser oracle that must never be consulted. -/
def c3noParse : Int → String → Except GoError RobotsPolicy :=
  fun _ _ => .error (.msg "unused")

/-- C3 counterexample: with the host cached under an all-denying policy and
a URL whose path is `/robots.txt`, the call issues no fetch and returns nil
— not the restriction error the claim requires for a path the cached policy
denies. -/
theorem c3_counterexample :
    RobotsData.IsAllowed c3noFetch c3noParse [("example.com", denyAll)]
        { Rules.empty with url := some (URL.mk "http" "example.com" "/robots.txt") }
      = (none, [("example.com", denyAll)], []) ∧
    denyAll.testAgent "/robots.txt"
        (Rules.headerGet
          { Rules.empty with url := some (URL.mk "http" "example.com" "/robots.txt") }
          "User-Agent")
      = false :=
  ⟨rfl, rfl⟩

/-- C3 (amended): for a host whose policy is cached and a URL of that host
whose path is not the robots-file path, `IsAllowed` issues no nested
request, leaves the cache unchanged, and returns the restriction error
exactly when the cached policy denies the URL's path for the rule's
User-Agent, nil when it allows it. -/
theorem c3_cached_no_fetch (doReq : Rules → Except GoError (Int × String))
    (fromStatusAndBytes : Int → String → Except GoError RobotsPolicy)
    (robots : RobotsCache) (rules : Rules) (u : URL) (policy : RobotsPolicy)
    (hurl : rules.url = some u)
    (hpath : u.path ≠ robotsTxtPath)
    (hcache : robots.lookup u.host = some policy) :
    RobotsData.IsAllowed doReq fromStatusAndBytes robots rules =
      ((if policy.testAgent u.path (rules.headerGet "User-Agent") then none
        else some errRobotstxtRestriction), robots, []) := by
  unfold RobotsData.IsAllowed
  rw [hurl]
  simp only [Option.getD_some]
  rw [if_neg hpath, hcache]
  cases htest : policy.testAgent u.path (rules.headerGet "User-Agent") <;>
    simp [htest]

/-- C3 witness: a denied ordinary path on a cached host concretely yields
the restriction error with no fetch and an unchanged cache. -/
theorem c3_witness :
    RobotsData.IsAllowed c3noFetch c3noParse [("example.com", denyAll)]
        { Rules.empty with url := some (URL.mk "http" "example.com" "/page") }
      = (some errRobotstxtRestriction, [("example.com", denyAll)], []) := by
  have h := c3_cached_no_fetch c3noFetch c3noParse [("example.com", denyAll)]
    { Rules.empty with url := some (URL.mk "http" "example.com" "/page") }
    (URL.mk "http" "example.com" "/page") denyAll rfl (by decide) rfl
  simpa [denyAll] using h

/-!
## Map and error-accumulator lemmas for the resolver claims
-/

theorem lookup_map_replace {α : Type} (m : List (String × α)) (k : String) (v : α) :
    (m.map (fun p => if p.1 = k then (k, v) else p)).lookup k
      = if (m.lookup k).isSome then some v else none := by
  induction m with
  | nil => simp [List.lookup]
  | cons p rest ih =>
    obtain ⟨a, b⟩ := p
    rw [List.map_cons]
    by_cases hk : a = k
    · subst hk
      rw [if_pos (show ((a, b).1 = a) from rfl)]
      simp [List.lookup]
    · rw [if_neg (show ¬((a, b).1 = k) from hk)]
      have hb : (k == a) = false := beq_eq_false_iff_ne.mpr (Ne.symm hk)
      simp only [List.lookup, hb]
      exact ih

theorem lookup_map_replace_ne {α : Type} (m : List (String × α)) (k : String) (v : α)
    (k' : String) (h : k' ≠ k) :
    (m.map (fun p => if p.1 = k then (k, v) else p)).lookup k' = m.lookup k' := by
  induction m with
  | nil => simp
  | cons p rest ih =>
    obtain ⟨a, b⟩ := p
    rw [List.map_cons]
    by_cases hk : a = k
    · subst hk
      rw [if_pos (show ((a, b).1 = a) from rfl)]
      have hb : (k' == a) = false := beq_eq_false_iff_ne.mpr h
      simp only [List.lookup, hb]
      exact ih
    · rw [if_neg (show ¬((a, b).1 = k) from hk)]
      simp only [List.lookup]
      cases hc : (k' == a) with
      | true => rfl
      | false => exact ih

theorem mapSet_lookup_self {α : Type} (m : List (String × α)) (k : String) (v : α) :
    (mapSet m k v).lookup k = some v := by
  unfold mapSet
  by_cases h : (m.lookup k).isSome
  · rw [if_pos h, lookup_map_replace, if_pos h]
  · rw [if_neg h]
    have hn : m.lookup k = none := Option.not_isSome_iff_eq_none.mp h
    rw [lookup_append_of_none _ hn]
    simp [List.lookup]

theorem mapSet_lookup_ne {α : Type} (m : List (String × α)) (k : String) (v : α)
    (k' : String) (h : k' ≠ k) :
    (mapSet m k v).lookup k' = m.lookup k' := by
  unfold mapSet
  by_cases hs : (m.lookup k).isSome
  · rw [if_pos hs]
    exact lookup_map_replace_ne m k v k' h
  · rw [if_neg hs]
    cases hc : m.lookup k' with
    | some w => exact lookup_append_of_some _ hc
    | none =>
      rw [lookup_append_of_none _ hc]
      have hb : (k' == k) = false := beq_eq_false_iff_ne.mpr h
      simp [List.lookup, hb]

theorem lookup_append_one {α : Type} (data : List (String × α)) (name : String) (e : α)
    (k : String) (h : k ≠ name) :
    (data ++ [(name, e)]).lookup k = data.lookup k := by
  cases hc : data.lookup k with
  | some w => exact lookup_append_of_some _ hc
  | none =>
    rw [lookup_append_of_none _ hc]
    have hb : (k == name) = false := beq_eq_false_iff_ne.mpr h
    simp [List.lookup, hb]

/-- Loop invariant for the engine's error accumulators: the accumulator is
nil, or an `*Errs` whose data does not yet bind any of the given fresh
keys. -/
def ErrAcc (errs : Option GoError) (fresh : List String) : Prop :=
  errs = none ∨ ∃ data, errs = some (GoError.errs data) ∧ ∀ k ∈ fresh, data.lookup k = none

theorem ErrAcc_nil (fresh : List String) : ErrAcc none fresh := Or.inl rfl

theorem ErrAcc_tail {errs : Option GoError} {k : String} {rest : List String}
    (h : ErrAcc errs (k :: rest)) : ErrAcc errs rest := by
  rcases h with h | ⟨data, hd, hf⟩
  · exact Or.inl h
  · exact Or.inr ⟨data, hd, fun k2 hk2 => hf k2 (List.mem_cons_of_mem _ hk2)⟩

theorem errLookup_of_ErrAcc {errs : Option GoError} {fresh : List String}
    (h : ErrAcc errs fresh) {k : String} (hk : k ∈ fresh) : errLookup errs k = none := by
  rcases h with h | ⟨data, hd, hf⟩
  · rw [h]; rfl
  · rw [hd]
    exact hf k hk

/-- Adding an error under a fresh non-empty key: the result is an `*Errs`
binding the key to the error, keeping every other key's binding, and
staying fresh for the remaining keys. -/
theorem ErrAcc_add {errs : Option GoError} {k : String} {rest : List String}
    (hacc : ErrAcc errs (k :: rest)) (hk : k ≠ "") (hknot : k ∉ rest) (e : GoError) :
    ∃ data', AddError errs k (some e) = some (.errs data') ∧
      data'.lookup k = some e ∧
      (∀ k2 ∈ rest, data'.lookup k2 = none) ∧
      (∀ k2, k2 ≠ k → data'.lookup k2 = errLookup errs k2) := by
  rcases hacc with h | ⟨data, hd, hf⟩
  · subst h
    refine ⟨[(k, e)], ?_, ?_, ?_, ?_⟩
    · show (if k = "" then none else some (GoError.errs (Errs.add [] k (some e))))
          = some (GoError.errs [(k, e)])
      rw [if_neg hk,
        Errs.add_of_free e hk (show List.lookup k ([] : List (String × GoError)) = none from rfl)]
      rfl
    · simp [List.lookup]
    · intro k2 hk2
      have hne : k2 ≠ k := fun hh => hknot (hh ▸ hk2)
      have hb : (k2 == k) = false := beq_eq_false_iff_ne.mpr hne
      simp [List.lookup, hb]
    · intro k2 hne
      have hb : (k2 == k) = false := beq_eq_false_iff_ne.mpr hne
      simp [List.lookup, hb, errLookup]
  · subst hd
    have hfreek : data.lookup k = none := hf k (List.mem_cons_self _ _)
    refine ⟨data ++ [(k, e)], ?_, ?_, ?_, ?_⟩
    · show some (GoError.errs (Errs.add data k (some e))) = _
      rw [Errs.add_of_free e hk hfreek]
    · rw [lookup_append_of_none _ hfreek]
      simp [List.lookup]
    · intro k2 hk2
      have hne : k2 ≠ k := fun hh => hknot (hh ▸ hk2)
      rw [lookup_append_one _ _ _ _ hne]
      exact hf k2 (List.mem_cons_of_mem _ hk2)
    · intro k2 hne
      rw [lookup_append_one _ _ _ _ hne]
      rfl

theorem findSelectorsLoop_nil {N : Type} (W : NodeOps N) (src : Rules) (resp : Response)
    (parent : N) (acc : List (String × Val)) (errs : Option GoError) :
    findSelectorsLoop W src resp parent [] acc errs = (acc, errs) := by
  simp [findSelectorsLoop]

theorem findSelectorsLoop_cons {N : Type} (W : NodeOps N) (src : Rules) (resp : Response)
    (parent : N) (sel : Selector) (rest : List Selector) (acc : List (String × Val))
    (errs : Option GoError) :
    findSelectorsLoop W src resp parent (sel :: rest) acc errs =
      match findSelector W src resp sel parent with
      | (_, some e) =>
        findSelectorsLoop W src resp parent rest acc (AddError errs sel.name (some e))
      | (found, none) =>
        findSelectorsLoop W src resp parent rest (mapSet acc sel.name found) errs := by
  rw [findSelectorsLoop]

/-- Frame property of the sibling-selector loop: a key that is no remaining
selector's name keeps its data binding and its error binding. -/
theorem findSelectorsLoop_frame {N : Type} (W : NodeOps N) (src : Rules) (resp : Response)
    (parent : N) :
    ∀ (sels : List Selector) (acc : List (String × Val)) (errs : Option GoError),
      ((sels.map Selector.name).Nodup) →
      (∀ sel ∈ sels, sel.name ≠ "") →
      ErrAcc errs (sels.map Selector.name) →
      ∀ k, k ∉ sels.map Selector.name →
        (findSelectorsLoop W src resp parent sels acc errs).1.lookup k = acc.lookup k ∧
        errLookup (findSelectorsLoop W src resp parent sels acc errs).2 k = errLookup errs k := by
  intro sels
  induction sels with
  | nil =>
    intro acc errs _ _ _ k _
    rw [findSelectorsLoop_nil]
    exact ⟨rfl, rfl⟩
  | cons sel rest ih =>
    intro acc errs hnd hne hacc k hk
    rw [List.map_cons] at hnd hacc hk
    have hkname : k ≠ sel.name := by
      intro hh
      exact hk (hh ▸ List.mem_cons_self _ _)
    have hkrest : k ∉ rest.map Selector.name := fun hh => hk (List.mem_cons_of_mem _ hh)
    have hndtail : (rest.map Selector.name).Nodup := (List.nodup_cons.mp hnd).2
    have hnotin : sel.name ∉ rest.map Selector.name := (List.nodup_cons.mp hnd).1
    have hnetail : ∀ s ∈ rest, s.name ≠ "" := fun s hs => hne s (List.mem_cons_of_mem _ hs)
    rw [findSelectorsLoop_cons]
    cases hfs : findSelector W src resp sel parent with
    | mk found errOpt =>
      cases errOpt with
      | none =>
        have h := ih (mapSet acc sel.name found) errs hndtail hnetail (ErrAcc_tail hacc)
          k hkrest
        refine ⟨?_, h.2⟩
        rw [h.1, mapSet_lookup_ne _ _ _ _ hkname]
      | some e =>
        obtain ⟨data', hadd, hlk, hfresh, hpres⟩ :=
          ErrAcc_add hacc (hne sel (List.mem_cons_self _ _)) hnotin e
        have hacc' : ErrAcc (some (GoError.errs data')) (rest.map Selector.name) :=
          Or.inr ⟨data', rfl, hfresh⟩
        have h := ih acc (AddError errs sel.name (some e)) hndtail hnetail
          (hadd ▸ hacc') k hkrest
        refine ⟨h.1, ?_⟩
        rw [h.2, hadd]
        show data'.lookup k = errLookup errs k
        exact hpres k hkname

/-- Main property of the sibling-selector loop: under the spec's data-model
invariant (sibling names non-empty and pairwise distinct) and an accumulator
fresh for those names, every selector whose evaluation succeeds has its
value bound to its name in the final data, with its error binding untouched,
and every selector whose evaluation fails has its error bound to its name in
the final error set. -/
theorem findSelectorsLoop_spec {N : Type} (W : NodeOps N) (src : Rules) (resp : Response)
    (parent : N) :
    ∀ (sels : List Selector) (acc : List (String × Val)) (errs : Option GoError),
      ((sels.map Selector.name).Nodup) →
      (∀ sel ∈ sels, sel.name ≠ "") →
      ErrAcc errs (sels.map Selector.name) →
      ∀ sel ∈ sels,
        (∀ v, findSelector W src resp sel parent = (v, none) →
          (findSelectorsLoop W src resp parent sels acc errs).1.lookup sel.name = some v ∧
          errLookup (findSelectorsLoop W src resp parent sels acc errs).2 sel.name
            = errLookup errs sel.name) ∧
        (∀ v e, findSelector W src resp sel parent = (v, some e) →
          errLookup (findSelectorsLoop W src resp parent sels acc errs).2 sel.name = some e) := by
  intro sels
  induction sels with
  | nil =>
    intro acc errs _ _ _ sel hmem
    exact absurd hmem (List.not_mem_nil sel)
  | cons sel' rest ih =>
    intro acc errs hnd hne hacc sel hmem
    rw [List.map_cons] at hnd hacc
    have hndtail : (rest.map Selector.name).Nodup := (List.nodup_cons.mp hnd).2
    have hnotin : sel'.name ∉ rest.map Selector.name := (List.nodup_cons.mp hnd).1
    have hnetail : ∀ s ∈ rest, s.name ≠ "" := fun s hs => hne s (List.mem_cons_of_mem _ hs)
    rcases List.mem_cons.mp hmem with rfl | hrest
    · -- sel is the head
      constructor
      · intro v hfs
        rw [findSelectorsLoop_cons, hfs]
        have h := findSelectorsLoop_frame W src resp parent rest
          (mapSet acc sel.name v) errs hndtail hnetail (ErrAcc_tail hacc)
          sel.name hnotin
        exact ⟨by rw [h.1, mapSet_lookup_self], h.2⟩
      · intro v e hfs
        rw [findSelectorsLoop_cons, hfs]
        obtain ⟨data', hadd, hlk, hfresh, hpres⟩ :=
          ErrAcc_add hacc (hne sel (List.mem_cons_self _ _)) hnotin e
        have hacc' : ErrAcc (some (GoError.errs data')) (rest.map Selector.name) :=
          Or.inr ⟨data', rfl, hfresh⟩
        have h := findSelectorsLoop_frame W src resp parent rest
          acc (AddError errs sel.name (some e)) hndtail hnetail (hadd ▸ hacc')
          sel.name hnotin
        rw [h.2, hadd]
        exact hlk
    · -- sel is in the tail
      have hselname_ne : sel.name ≠ sel'.name := by
        intro hh
        exact hnotin (hh ▸ List.mem_map_of_mem Selector.name hrest)
      rw [findSelectorsLoop_cons]
      cases hfs' : findSelector W src resp sel' parent with
      | mk found' errOpt' =>
        cases errOpt' with
        | none =>
          exact ih (mapSet acc sel'.name found') errs hndtail hnetail
            (ErrAcc_tail hacc) sel hrest
        | some e' =>
          obtain ⟨data', hadd, hlk, hfresh, hpres⟩ :=
            ErrAcc_add hacc (hne sel' (List.mem_cons_self _ _)) hnotin e'
          have hacc' : ErrAcc (some (GoError.errs data')) (rest.map Selector.name) :=
            Or.inr ⟨data', rfl, hfresh⟩
          have h := ih acc (AddError errs sel'.name (some e')) hndtail hnetail
            (hadd ▸ hacc') sel hrest
          refine ⟨?_, h.2⟩
          intro v hfs
          refine ⟨(h.1 v hfs).1, ?_⟩
          rw [(h.1 v hfs).2, hadd]
          show data'.lookup sel.name = errLookup errs sel.name
          exact hpres sel.name hselname_ne

/-!
## Claim C1 — sibling isolation in `FindSelectors`

The spec's data model declares sibling selector names non-empty (empty
names are skipped at construction) and expected unique (§3 invariant;
collisions are flagged as undefined behaviour), so the claim is formalized
under that invariant.
-/

/-- C1: for rules with a non-empty list of sibling selectors (names
non-empty and pairwise distinct per the data-model invariant),
`FindSelectors` records each failing selector's error in the error set
under that selector's name and keeps evaluating the remaining siblings:
every sibling whose evaluation succeeds still contributes its entry to the
returned data map, no matter how many siblings failed. -/
theorem c1_findSelectors_partial {N : Type} (W : NodeOps N) (rules : Rules)
    (resp : Response) (parent : N)
    (hne : rules.selectors ≠ [])
    (hnames : ∀ sel ∈ rules.selectors, sel.name ≠ "")
    (hnodup : (rules.selectors.map Selector.name).Nodup) :
    ∀ sel ∈ rules.selectors,
      (∀ v, findSelector W rules resp sel parent = (v, none) →
        (FindSelectors W rules (some resp) (some parent)).1.lookup sel.name = some v) ∧
      (∀ v e, findSelector W rules resp sel parent = (v, some e) →
        errLookup (FindSelectors W rules (some resp) (some parent)).2 sel.name = some e) := by
  intro sel hmem
  have hFS : FindSelectors W rules (some resp) (some parent)
      = findSelectorsLoop W rules resp parent rules.selectors [] none := by
    simp [FindSelectors]
  have h := findSelectorsLoop_spec W rules resp parent rules.selectors [] none
    hnodup hnames (ErrAcc_nil _) sel hmem
  constructor
  · intro v hfs
    rw [hFS]
    exact (h.1 v hfs).1
  · intro v e hfs
    rw [hFS]
    exact h.2 v e hfs

/-- Node capability used by the C1 witness: finding `!err` fails, anything
else matches a node with value `"v"`. -/
def c1nodeOps : NodeOps Unit :=
  { find := fun _ sel => if sel.expr = "!err" then .error (.msg "boom") else .ok (some ())
    findAll := fun _ _ => .ok []
    value := fun _ => .str "v" }

/-- A selector that matches. -/
def c1selGood : Selector := .mk "good" "//t" "" false false "" none none 0 [] []

/-- A selector whose evaluation fails. -/
def c1selBad : Selector := .mk "bad" "!err" "" false false "" none none 0 [] []

/-- Rules with one succeeding and one failing sibling. -/
def c1rules : Rules := { Rules.empty with selectors := [c1selBad, c1selGood] }

/-- Response used by the engine witnesses; its extract oracle always
fails (never reached). -/
def c1resp : Response := .mk (URL.mk "http" "h" "/") Val.nil (fun _ => .error (.msg "x"))

/-- C1 witness: with the failing sibling listed first, the succeeding
sibling still lands in the data map and the failure is recorded under its
name. -/
theorem c1_witness :
    (FindSelectors c1nodeOps c1rules (some c1resp) (some ())).1.lookup "good"
      = some (.str "v") ∧
    errLookup (FindSelectors c1nodeOps c1rules (some c1resp) (some ())).2 "bad"
      = some (.msg "boom") := by
  have hgoodmem : c1selGood ∈ c1rules.selectors := by simp [c1rules]
  have hbadmem : c1selBad ∈ c1rules.selectors := by simp [c1rules]
  have hnames : ∀ sel ∈ c1rules.selectors, sel.name ≠ "" := by
    intro sel hs
    simp [c1rules] at hs
    rcases hs with rfl | rfl <;> decide
  have hnodup : (c1rules.selectors.map Selector.name).Nodup := by decide
  have hne : c1rules.selectors ≠ [] := by simp [c1rules]
  have hgood := c1_findSelectors_partial c1nodeOps c1rules c1resp ()
    hne hnames hnodup c1selGood hgoodmem
  have hbad := c1_findSelectors_partial c1nodeOps c1rules c1resp ()
    hne hnames hnodup c1selBad hbadmem
  have hfsgood : findSelector c1nodeOps c1rules c1resp c1selGood () = (.str "v", none) := by
    simp [findSelector, c1nodeOps, c1selGood, Selector.all, Selector.follow,
      Selector.expr, Selector.selectors]
  have hfsbad : findSelector c1nodeOps c1rules c1resp c1selBad () = (.nil, some (.msg "boom")) := by
    simp [findSelector, c1nodeOps, c1selBad, Selector.all, Selector.follow,
      Selector.expr, Selector.selectors]
  exact ⟨by simpa [c1selGood, Selector.name] using (hgood.1 _ hfsgood),
    by simpa [c1selBad, Selector.name] using (hbad.2 _ _ hfsbad)⟩

/-!
## Claim C6 — "all" selector with zero matches stores an empty list
-/

theorem findAllLoop_nil {N : Type} (W : NodeOps N) (rules : Rules) (resp : Response)
    (i : Nat) (acc : List Val) (errs : Option GoError) :
    findAllLoop W rules resp [] i acc errs = (acc, errs) := by
  simp [findAllLoop]

/-- C6: an "all" selector (no Follow, with or without nested selectors)
whose `FindAll` yields zero matches and no error stores the empty list —
not nil — under its name, records no error, and that empty list is distinct
from the nil a non-"all" selector produces on no match. -/
theorem c6_all_empty {N : Type} (W : NodeOps N) (rules : Rules) (resp : Response)
    (parent : N) (sel : Selector)
    (hall : sel.all = true) (hfollow : sel.follow = false)
    (hempty : W.findAll parent sel = .ok [])
    (hmem : sel ∈ rules.selectors)
    (hnames : ∀ s ∈ rules.selectors, s.name ≠ "")
    (hnodup : (rules.selectors.map Selector.name).Nodup) :
    findAllSelector W rules resp sel parent = ([], none) ∧
    findSelector W rules resp sel parent = (Val.list [], none) ∧
    (FindSelectors W rules (some resp) (some parent)).1.lookup sel.name
      = some (Val.list []) ∧
    errLookup (FindSelectors W rules (some resp) (some parent)).2 sel.name = none ∧
    Val.list [] ≠ Val.nil ∧
    (∀ s2, s2.all = false → W.find parent s2 = .ok none →
      findSelector W rules resp s2 parent = (Val.nil, none)) := by
  have hfa : findAllSelector W rules resp sel parent = ([], none) := by
    rw [findAllSelector]
    rw [hempty]
    by_cases hlen : sel.selectors.length > 0
    · simp [hfollow, hlen, findAllLoop_nil]
    · simp [hfollow, hlen]
  have hfs : findSelector W rules resp sel parent = (Val.list [], none) := by
    rw [findSelector]
    rw [if_pos hall, hfa]
  have hFS : FindSelectors W rules (some resp) (some parent)
      = findSelectorsLoop W rules resp parent rules.selectors [] none := by
    simp [FindSelectors]
  have h := findSelectorsLoop_spec W rules resp parent rules.selectors [] none
    hnodup hnames (ErrAcc_nil _) sel hmem
  refine ⟨hfa, hfs, ?_, ?_, ?_, ?_⟩
  · rw [hFS]
    exact ((h.1 _ hfs).1)
  · rw [hFS]
    rw [(h.1 _ hfs).2]
    rfl
  · intro hcontra
    exact Val.noConfusion hcontra
  · intro s2 h2 hfind
    rw [findSelector]
    rw [if_neg (by simp [h2]), hfind]

/-- Node capability used by the C6 witness: `FindAll` yields no matches,
`Find` finds nothing. -/
def c6nodeOps : NodeOps Unit :=
  { find := fun _ _ => .ok none
    findAll := fun _ _ => .ok []
    value := fun _ => .str "v" }

/-- An "all" selector. -/
def c6selAll : Selector := .mk "items" "//li" "" true false "" none none 0 [] []

/-- A plain selector with no match. -/
def c6selNone : Selector := .mk "missing" "//t" "" false false "" none none 0 [] []

/-- Rules holding the "all" selector and a plain no-match sibling. -/
def c6rules : Rules := { Rules.empty with selectors := [c6selAll, c6selNone] }

/-- C6 witness: concretely, the "all" selector with zero matches stores the
empty list under `items` with no error, while its no-match non-"all"
sibling stores nil — two distinct values. -/
theorem c6_witness :
    (FindSelectors c6nodeOps c6rules (some c1resp) (some ())).1.lookup "items"
      = some (Val.list []) ∧
    errLookup (FindSelectors c6nodeOps c6rules (some c1resp) (some ())).2 "items" = none ∧
    findSelector c6nodeOps c6rules c1resp c6selNone () = (Val.nil, none) ∧
    Val.list [] ≠ Val.nil := by
  have hmem : c6selAll ∈ c6rules.selectors := by simp [c6rules]
  have hnames : ∀ s ∈ c6rules.selectors, s.name ≠ "" := by
    intro s hs
    simp [c6rules] at hs
    rcases hs with rfl | rfl <;> decide
  have hnodup : (c6rules.selectors.map Selector.name).Nodup := by decide
  have h := c6_all_empty c6nodeOps c6rules c1resp () c6selAll rfl rfl rfl
    hmem hnames hnodup
  refine ⟨by simpa [c6selAll, Selector.name] using h.2.2.1,
    by simpa [c6selAll, Selector.name] using h.2.2.2.1,
    h.2.2.2.2.2 c6selNone rfl rfl, h.2.2.2.2.1⟩

/-!
## Claim C2 — follow-link batches and coercion failures
-/

theorem toDigits_length_pos (n : Nat) : 0 < (Nat.toDigits 10 n).length := by
  show 0 < (Nat.toDigitsCore 10 (n + 1) n []).length
  rw [Nat.toDigitsCore]
  by_cases h : n / 10 = 0
  · simp [h]
  · simp only [h, if_false]
    rw [Nat.toDigitsCore_lens_eq]
    omega

theorem natRepr_ne_empty (n : Nat) : Nat.repr n ≠ "" := by
  intro h
  have hd := congrArg String.data h
  rw [Nat.repr] at hd
  have hd' : Nat.toDigits 10 n = [] := by
    simpa [List.asString] using hd
  have hlen := toDigits_length_pos n
  rw [hd'] at hlen
  simp at hlen

/-- A value `ToURL` rejects has a non-empty string form (so it is a valid
error-set key). -/
theorem fmtVal_ne_empty_of_error (v : Val) (e : GoError) (h : ToURL v = .error e) :
    fmtVal v ≠ "" := by
  cases v with
  | str s => simp [ToURL] at h
  | nil => simp [fmtVal]
  | list xs => simp [fmtVal]
  | map m => simp [fmtVal]
  | num n =>
    show toString n ≠ ""
    cases n with
    | ofNat m =>
      show Nat.repr m ≠ ""
      exact natRepr_ne_empty m
    | negSucc m =>
      show "-" ++ Nat.repr (m + 1) ≠ ""
      intro hh
      have hl := congrArg String.length hh
      rw [String.length_append] at hl
      have h1 : ("-" : String).length = 1 := rfl
      have h0 : ("" : String).length = 0 := rfl
      rw [h1, h0] at hl
      omega

/-- The URLs a batch of raw values resolves to (successful coercions only,
relative references resolved against the response's URL), in order. -/
def resolveList (resp : Response) (vs : List Val) : List URL :=
  vs.filterMap (fun v =>
    match ToURL v with
    | .ok u => some (if ¬ u.isAbs then resp.url.resolveReference u else u)
    | .error _ => none)

/-- Behaviour of the coercion/resolution loop of `followSelector`: resolved
URLs append in order; keys outside the batch keep their error bindings; a
failing value's error is recorded under its string form; and when every
value coerces the error accumulator is untouched. -/
theorem followCoerce_spec (resp : Response) :
    ∀ (vs : List Val) (urls : List URL) (errs : Option GoError),
      ((vs.map fmtVal).Nodup) →
      ErrAcc errs (vs.map fmtVal) →
      (followCoerce resp vs urls errs).1 = urls ++ resolveList resp vs ∧
      (∀ k, k ∉ vs.map fmtVal →
        errLookup (followCoerce resp vs urls errs).2 k = errLookup errs k) ∧
      (∀ v ∈ vs, ∀ e, ToURL v = .error e →
        errLookup (followCoerce resp vs urls errs).2 (fmtVal v) = some e) ∧
      ((∀ v ∈ vs, ∃ u, ToURL v = .ok u) →
        (followCoerce resp vs urls errs).2 = errs) := by
  intro vs
  induction vs with
  | nil =>
    intro urls errs _ _
    refine ⟨by simp [followCoerce, resolveList], fun k _ => rfl, ?_, fun _ => rfl⟩
    intro v hv
    exact absurd hv (List.not_mem_nil v)
  | cons v rest ih =>
    intro urls errs hnd hacc
    rw [List.map_cons] at hnd hacc
    have hndtail : (rest.map fmtVal).Nodup := (List.nodup_cons.mp hnd).2
    have hnotin : fmtVal v ∉ rest.map fmtVal := (List.nodup_cons.mp hnd).1
    cases hto : ToURL v with
    | ok u =>
      have hstep : followCoerce resp (v :: rest) urls errs
          = followCoerce resp rest
              (urls ++ [if ¬ u.isAbs then resp.url.resolveReference u else u]) errs := by
        rw [followCoerce, hto]
      have hres : resolveList resp (v :: rest)
          = (if ¬ u.isAbs then resp.url.resolveReference u else u) :: resolveList resp rest := by
        simp [resolveList, List.filterMap_cons, hto]
      obtain ⟨ih1, ih2, ih3, ih4⟩ := ih
        (urls ++ [if ¬ u.isAbs then resp.url.resolveReference u else u]) errs
        hndtail (ErrAcc_tail hacc)
      refine ⟨?_, ?_, ?_, ?_⟩
      · rw [hstep, ih1, hres]
        simp
      · intro k hk
        rw [hstep]
        exact ih2 k (fun hh => hk (List.mem_cons_of_mem _ hh))
      · intro v' hv' e' hto'
        rcases List.mem_cons.mp hv' with rfl | hv'
        · rw [hto] at hto'
          exact absurd hto' (by simp)
        · rw [hstep]
          exact ih3 v' hv' e' hto'
      · intro hall
        rw [hstep]
        exact ih4 (fun v' hv' => hall v' (List.mem_cons_of_mem _ hv'))
    | error e0 =>
      have hkeyne : fmtVal v ≠ "" := fmtVal_ne_empty_of_error v e0 hto
      have hstep : followCoerce resp (v :: rest) urls errs
          = followCoerce resp rest urls (AddError errs (fmtVal v) (some e0)) := by
        rw [followCoerce, hto]
      have hres : resolveList resp (v :: rest) = resolveList resp rest := by
        simp [resolveList, List.filterMap_cons, hto]
      obtain ⟨data', hadd, hlk, hfresh, hpres⟩ := ErrAcc_add hacc hkeyne hnotin e0
      have hacc' : ErrAcc (AddError errs (fmtVal v) (some e0)) (rest.map fmtVal) := by
        rw [hadd]
        exact Or.inr ⟨data', rfl, hfresh⟩
      obtain ⟨ih1, ih2, ih3, ih4⟩ := ih urls (AddError errs (fmtVal v) (some e0))
        hndtail hacc'
      refine ⟨?_, ?_, ?_, ?_⟩
      · rw [hstep, ih1, hres]
      · intro k hk
        rw [hstep, ih2 k (fun hh => hk (List.mem_cons_of_mem _ hh)), hadd]
        show data'.lookup k = errLookup errs k
        exact hpres k (fun hh => hk (hh ▸ List.mem_cons_self _ _))
      · intro v' hv' e' hto'
        rcases List.mem_cons.mp hv' with rfl | hv'
        · rw [hto] at hto'
          have he : e' = e0 := by
            injection hto' with hh
            exact hh.symm
          subst he
          rw [hstep, ih2 (fmtVal v') hnotin, hadd]
          exact hlk
        · rw [hstep]
          exact ih3 v' hv' e' hto'
      · intro hall
        obtain ⟨u, hu⟩ := hall v (List.mem_cons_self _ _)
        rw [hto] at hu
        exact absurd hu (by simp)

/-- When every extraction succeeds, the fetch/extract loop appends each
URL's serialized output in order. -/
theorem followExtract_all_ok (rules : Rules) (resp : Response) (outs : URL → Output)
    (hex : ∀ u, resp.extract { rules.clone with url := some u } = .ok (outs u)) :
    ∀ (urls : List URL) (acc : List Val),
      followExtract rules resp urls acc none
        = (acc ++ urls.map (fun u => (outs u).serializable), none) := by
  intro urls
  induction urls with
  | nil =>
    intro acc
    simp [followExtract]
  | cons u rest ih =>
    intro acc
    rw [followExtract, hex u]
    dsimp only
    rw [ih]
    simp

/-- C2 (amended): each non-coercible value in a follow batch contributes an
error keyed by its string form and is skipped by the resolution loop (the
remaining values still resolve); but the presence of any non-coercible
value aborts the batch before fetching — `followSelector` returns nil with
the collected errors, and only a batch in which every value coerces has
each resolved URL fetched and extracted.  (String forms are assumed
pairwise distinct, else the later keys get counter suffixes.) -/
theorem c2_followSelector (rules : Rules) (resp : Response) (vs : List Val)
    (hnodup : (vs.map fmtVal).Nodup) :
    (∀ v ∈ vs, ∀ e, ToURL v = .error e →
      errLookup (followSelector rules resp vs).2 (fmtVal v) = some e ∧
      (followSelector rules resp vs).1 = []) ∧
    (∀ (outs : URL → Output),
      (∀ v ∈ vs, ∃ u, ToURL v = .ok u) →
      (∀ u, resp.extract { rules.clone with url := some u } = .ok (outs u)) →
      followSelector rules resp vs
        = ((resolveList resp vs).map (fun u => (outs u).serializable), none)) := by
  obtain ⟨h1, h2, h3, h4⟩ := followCoerce_spec resp vs [] none hnodup (ErrAcc_nil _)
  constructor
  · intro v hv e hto
    have herr := h3 v hv e hto
    cases hc : followCoerce resp vs [] none with
    | mk urls errsOpt =>
      cases errsOpt with
      | none =>
        rw [hc] at herr
        simp [errLookup] at herr
      | some eg =>
        rw [hc] at herr
        rw [followSelector, hc]
        exact ⟨herr, rfl⟩
  · intro outs hall hex
    have hsnd := h4 hall
    cases hc : followCoerce resp vs [] none with
    | mk urls errsOpt =>
      rw [hc] at hsnd h1
      have hnone : errsOpt = none := hsnd
      subst hnone
      have hurls : urls = resolveList resp vs := by simpa using h1
      rw [followSelector, hc]
      dsimp only
      rw [followExtract_all_ok rules resp outs hex urls [], hurls]
      simp

/-- A response whose extract oracle is never reached (used inside the C2
sample output). -/
def c2respBase : Response :=
  .mk (URL.mk "http" "example.com" "/") (Val.str "respSerial") (fun _ => .error (.msg "inner"))

/-- The output the C2 extract oracle returns for every sub-request. -/
def c2out : Output := .mk c2respBase []

/-- A response whose re-entrant extract always succeeds with `c2out`. -/
def c2resp : Response :=
  .mk (URL.mk "http" "example.com" "/") Val.nil (fun _ => .ok c2out)

/-- C2 counterexample: in a batch holding a coercible URL string and the
non-coercible number `505`, `followSelector` returns nil with only the
coercion error — the coercible value is *not* fetched or extracted (its
extraction output, which the same oracle yields for a clean singleton
batch, is absent, and no error is keyed by its URL): a non-coercible value
does abort the batch. -/
theorem c2_counterexample :
    followSelector Rules.empty c2resp [Val.str "http://example.com/a", Val.num 505]
      = ([], some (.errs [("505", errMustBeString)])) ∧
    followSelector Rules.empty c2resp [Val.str "http://example.com/a"]
      = ([c2out.serializable], none) :=
  ⟨rfl, rfl⟩

/-- C2 witness: the amended claim at the same concrete inputs — the
coercion error is keyed `505`, the mixed batch yields nil, and an all-
coercible batch extracts every resolved URL. -/
theorem c2_witness :
    errLookup (followSelector Rules.empty c2resp
        [Val.str "http://example.com/a", Val.num 505]).2 "505" = some errMustBeString ∧
    (followSelector Rules.empty c2resp [Val.str "http://example.com/a", Val.num 505]).1
      = [] ∧
    followSelector Rules.empty c2resp [Val.str "http://example.com/b"]
      = ([c2out.serializable], none) := by
  have hmixed := (c2_followSelector Rules.empty c2resp
    [Val.str "http://example.com/a", Val.num 505] (by decide)).1
    (Val.num 505) (by simp) errMustBeString rfl
  have hclean := (c2_followSelector Rules.empty c2resp
    [Val.str "http://example.com/b"] (by decide)).2
    (fun _ => c2out)
    (by
      intro v hv
      simp at hv
      subst hv
      exact ⟨parseURL "http://example.com/b", rfl⟩)
    (fun u => rfl)
  refine ⟨?_, hmixed.2, ?_⟩
  · have h505 : fmtVal (Val.num 505) = "505" := rfl
    rw [h505] at hmixed
    exact hmixed.1
  · rw [hclean]
    rfl
